import Mathlib

/-!
# dpdk_demo_test/main.c — a shallow embedding

The program is a poll-mode forwarder written against the DPDK API.  Every call
into DPDK (and every other externally visible action: log lines, the volatile
read of `quit`) is recorded as a `Call` in a history `List Call`.  The answers
of the outside world are given by a `World`, whose oracles may depend on the
whole history so far, so a driver with internal state, or a signal that arrives
between two statements, is just a particular `World`.
-/

namespace DpdkDemo

/-! ## Constants of main.c -/

/-- Line 33: `#define NUM_MBUFS 8191` -/
def NUM_MBUFS : Nat := 8191

/-- Line 35: `#define MBUF_CACHE_SIZE 250` -/
def MBUF_CACHE_SIZE : Nat := 250

/-- Line 38: `#define RX_RING_SIZE 128` -/
def RX_RING_SIZE : Nat := 128

/-- Line 39: `#define TX_RING_SIZE 512` -/
def TX_RING_SIZE : Nat := 512

/-- Line 42: `#define BURST_SIZE 32` -/
def BURST_SIZE : Nat := 32

/-- Line 45: `static u_int8_t forwarding_lcore = 1;` -/
def forwarding_lcore : Nat := 1

/-- Value of `ETH_LINK_DOWN` in rte_ethdev.h. -/
def ETH_LINK_DOWN : Nat := 0

/-- Value of `ETH_LINK_UP` in rte_ethdev.h. -/
def ETH_LINK_UP : Nat := 1

/-- Value of `SIGINT` in signal.h. -/
def SIGINT : Int := 2

/-- Value of `SIGTERM` in signal.h. -/
def SIGTERM : Int := 15

/-! ## Data -/

/-- A packet buffer, `struct rte_mbuf *`, identified by its address. -/
abbrev Mbuf := Nat

/-- The two fields of `struct rte_eth_link` that main.c reads. -/
structure rte_eth_link where
  link_speed : Nat
  link_status : Nat
  deriving DecidableEq, Repr

/-- The three fields of `struct rte_eth_stats` that main.c reads. -/
structure rte_eth_stats where
  ipackets : Nat
  opackets : Nat
  imissed : Nat
  deriving DecidableEq, Repr

/-- One externally visible action of the program, with the arguments passed and,
where the program uses it, the value that came back. -/
inductive Call where
  | rte_log (fmt : String) (args : List Nat)
  | printf (fmt : String) (args : List Nat)
  | eal_setup (ret : Int)
  | signal (sig : Int)
  | pktmbuf_pool_create (n cache_size : Nat) (ok : Bool)
  | eth_link_get (port : Nat)
  | read_quit (value : Bool)
  | write_quit (value : Bool)
  | eth_rx_burst (port queue nb_pkts : Nat) (bufs : List Mbuf)
  | eth_tx_burst (port queue : Nat) (bufs : List Mbuf) (nb_pkts sent : Nat)
  | pktmbuf_free (m : Mbuf)
  | eth_dev_configure (port nb_rx_q nb_tx_q : Nat) (ret : Int)
  | eth_dev_adjust_nb_rx_tx_desc (port nb_rxd nb_txd : Nat) (ret : Int)
  | eth_rx_queue_setup (port q nb_rxd : Nat) (ret : Int)
  | eth_tx_queue_setup (port q nb_txd : Nat) (ret : Int)
  | eth_dev_start (port : Nat) (ret : Int)
  | eth_macaddr_get (port : Nat)
  | eal_mp_remote_launch
  | eal_mp_wait_lcore
  | print_stats
  | eth_stats_get (port : Nat)
  deriving DecidableEq, Repr

/-- The outside world as the program sees it.  `lcore_id`, `dev_count` and
`link` are fixed; the other oracles answer a call given the history of all
calls made before it. -/
structure World where
  /-- Value of `rte_lcore_id()` -/
  lcore_id : Nat
  /-- Value of `rte_eth_dev_count()` -/
  dev_count : Nat
  /-- What `rte_eth_link_get(port, &link)` stores into `link` -/
  link : Nat → rte_eth_link
  /-- Value of the volatile flag `quit` at the moment the history is `h` -/
  quit : List Call → Bool
  /-- Answer of `rte_eth_rx_burst(port, queue, bufs, nb_pkts)`: the buffers stored into
  `bufs[0..]`; their number is the return value (at most `nb_pkts` by the
  driver contract) -/
  rx_burst : List Call → Nat → Nat → Nat → List Mbuf
  /-- Answer of `rte_eth_tx_burst(port, queue, bufs, nb_pkts)`: the number accepted -/
  tx_burst : List Call → Nat → Nat → List Mbuf → Nat → Nat
  /-- Return value of `rte_eal_init(argc, argv)` -/
  eal_ret : Int
  /-- Whether `rte_pktmbuf_pool_create(...)` returns a pool, not NULL -/
  pool_ok : List Call → Bool
  /-- Return value of `rte_eth_dev_configure(port, 1, 1, &port_conf)` -/
  dev_configure : List Call → Nat → Int
  /-- Answer of `rte_eth_dev_adjust_nb_rx_tx_desc(port, &nb_rxd, &nb_txd)`: the return
  value and the adjusted `nb_rxd`, `nb_txd` -/
  adjust_desc : List Call → Nat → Nat → Nat → Int × Nat × Nat
  /-- Return value of `rte_eth_rx_queue_setup(port, q, nb_rxd, ...)` -/
  rx_queue_setup : List Call → Nat → Nat → Nat → Int
  /-- Return value of `rte_eth_tx_queue_setup(port, q, nb_txd, ...)` -/
  tx_queue_setup : List Call → Nat → Nat → Nat → Int
  /-- Return value of `rte_eth_dev_start(port)` -/
  dev_start : List Call → Nat → Int
  /-- The six `addr_bytes` stored by `rte_eth_macaddr_get(port, &addr)` -/
  macaddr : Nat → List Nat
  /-- What `rte_eth_stats_get(port, &stats)` stores into `stats` -/
  stats : List Call → Nat → rte_eth_stats

/-! ## lcore_main: the forwarding loop -/

/-- The transmit port of line 104, `port ^ 1`. -/
def pair (port : Nat) : Nat := port ^^^ 1

/-- Lines 109-110: `for(buf = nb_tx; buf < nb_rx; buf++) rte_pktmbuf_free(bufs[buf]);`
The first argument bounds the number of loop tests; `nb_rx` always suffices. -/
def free_unsent (bufs : List Mbuf) (nb_rx : Nat) : Nat → Nat → List Call → List Call
  | 0, _, h => h
  | fuel + 1, buf, h =>
    if buf < nb_rx then
      free_unsent bufs nb_rx fuel (buf + 1) (h ++ [Call.pktmbuf_free (bufs.getD buf 0)])
    else h

/-- Lines 94-111: the body of the `for` loop over ports. -/
def forward_port (w : World) (port : Nat) (h : List Call) : List Call :=
  let bufs := w.rx_burst h port 0 BURST_SIZE
  let nb_rx := bufs.length
  let h1 := h ++ [Call.eth_rx_burst port 0 BURST_SIZE bufs]
  if nb_rx = 0 then h1
  else
    let nb_tx := w.tx_burst h1 (pair port) 0 bufs nb_rx
    let h2 := h1 ++ [Call.eth_tx_burst (pair port) 0 bufs nb_rx nb_tx]
    if nb_tx < nb_rx then free_unsent bufs nb_rx nb_rx nb_tx h2 else h2

/-- Lines 93-112: `for(port = 0; port < nb_ports; port++) { ... }`.  The first
argument counts the iterations still to run: `port` and `nb_ports` are both
8-bit, so `port++` reaches `nb_ports` without wrapping. -/
def sweep_from (w : World) : Nat → Nat → List Call → List Call
  | 0, _, h => h
  | n + 1, port, h => sweep_from w n (port + 1) (forward_port w port h)

/-- One pass of the `for` loop of lines 93-112 over ports `0 .. nb_ports - 1`. -/
def sweep (w : World) (nb_ports : Nat) (h : List Call) : List Call :=
  sweep_from w nb_ports 0 h

/-- Lines 53-63, the loop of `check_link_status` from a given `port` on.  `port`
is a `u_int8_t` and `nb_ports` a `u_int16_t`, so `port++` wraps at 256; the
first argument bounds the number of loop tests and `none` means it ran out. -/
def check_link_status_from (w : World) (nb_ports : Nat) :
    Nat → Nat → List Call → Option (Int × List Call)
  | 0, _, _ => none
  | fuel + 1, port, h =>
    if port < nb_ports then
      let link := w.link port
      let h1 := h ++ [Call.eth_link_get port]
      if link.link_status = ETH_LINK_DOWN then
        some (-1, h1 ++ [Call.rte_log "Port %u link is down\n" [port]])
      else
        check_link_status_from w nb_ports fuel ((port + 1) % 256)
          (h1 ++ [Call.rte_log "Port %u link is up and speed %u\n" [port, link.link_speed]])
    else some (0, h)

/-- Lines 48-64: `static int check_link_status(u_int16_t nb_ports)`. -/
def check_link_status (w : World) (nb_ports fuel : Nat) (h : List Call) :
    Option (Int × List Call) :=
  check_link_status_from w nb_ports fuel 0 h

/-- Lines 89-113: `while(!quit) { for(...) {...} }`.  Every evaluation of the
loop condition is a read of the volatile flag and is recorded.  The first
argument bounds the number of evaluations of the condition. -/
def forward_loop (w : World) (nb_ports : Nat) : Nat → List Call → Option (List Call)
  | 0, _ => none
  | fuel + 1, h =>
    let q := w.quit h
    let h1 := h ++ [Call.read_quit q]
    if !q then forward_loop w nb_ports fuel (sweep w nb_ports h1) else some h1

/-- Lines 71-114: `int lcore_main(void *arg)`.  `nb_ports` is a `u_int8_t`, so
256 loop tests always suffice for `check_link_status`; `fuel` bounds the
`while` loop. -/
def lcore_main (w : World) (fuel : Nat) (h : List Call) : Option (List Call) :=
  let lcore_id := w.lcore_id
  let nb_ports := w.dev_count % 256
  let h1 := if lcore_id ≠ forwarding_lcore then
      h ++ [Call.rte_log "lcore %u exiting\n" [lcore_id]] else h
  match check_link_status w nb_ports 256 h1 with
  | none => none
  | some (ret, h2) =>
    let h3 := if ret < 0 then h2 ++ [Call.rte_log "Some ports are down\n" [lcore_id]] else h2
    forward_loop w nb_ports fuel h3

/-! ## port_init -/

/-- Lines 157-162: the receive-queue loop; `some retval` is the early return. -/
def rx_queues_setup (w : World) (port nb_rxd rx_rings : Nat) :
    Nat → Nat → List Call → Option Int × List Call
  | 0, _, h => (none, h)
  | n + 1, q, h =>
    if q < rx_rings then
      let retval := w.rx_queue_setup h port q nb_rxd
      let h1 := h ++ [Call.eth_rx_queue_setup port q nb_rxd retval]
      if retval < 0 then (some retval, h1)
      else rx_queues_setup w port nb_rxd rx_rings n (q + 1) h1
    else (none, h)

/-- Lines 167-172: the transmit-queue loop; `some retval` is the early return. -/
def tx_queues_setup (w : World) (port nb_txd tx_rings : Nat) :
    Nat → Nat → List Call → Option Int × List Call
  | 0, _, h => (none, h)
  | n + 1, q, h =>
    if q < tx_rings then
      let retval := w.tx_queue_setup h port q nb_txd
      let h1 := h ++ [Call.eth_tx_queue_setup port q nb_txd retval]
      if retval < 0 then (some retval, h1)
      else tx_queues_setup w port nb_txd tx_rings n (q + 1) h1
    else (none, h)

/-- Lines 120-205: `port_init(uint8_t port, struct rte_mempool *mbuf_pool)`.
Returns the return value and the history extended by the calls made. The
socket id and pool arguments of the queue setup calls are not recorded. -/
def port_init (w : World) (port : Nat) (h : List Call) : Int × List Call :=
  let rx_rings := 1
  let tx_rings := 1
  if port ≥ w.dev_count then (-1, h)
  else
    let retval := w.dev_configure h port
    let h1 := h ++ [Call.eth_dev_configure port rx_rings tx_rings retval]
    if retval ≠ 0 then (retval, h1)
    else
      let adj := w.adjust_desc h1 port RX_RING_SIZE TX_RING_SIZE
      let h2 := h1 ++ [Call.eth_dev_adjust_nb_rx_tx_desc port RX_RING_SIZE TX_RING_SIZE adj.1]
      if adj.1 ≠ 0 then (adj.1, h2)
      else
        match rx_queues_setup w port adj.2.1 rx_rings (rx_rings + 1) 0 h2 with
        | (some retval, h3) => (retval, h3)
        | (none, h3) =>
          match tx_queues_setup w port adj.2.2 tx_rings (tx_rings + 1) 0 h3 with
          | (some retval, h4) => (retval, h4)
          | (none, h4) =>
            let retval := w.dev_start h4 port
            let h5 := h4 ++ [Call.eth_dev_start port retval]
            if retval < 0 then (retval, h5)
            else
              (0, h5 ++ [Call.eth_macaddr_get port,
                         Call.printf "Port %u MAC: %02x %02x %02x %02x %02x %02x\n"
                           (port :: w.macaddr port),
                         Call.eal_mp_remote_launch,
                         Call.eal_mp_wait_lcore])

/-! ## print_stats and signal_handler -/

/-- Lines 216-221: the loop of `print_stats`, run for the iterations left. -/
def print_stats_from (w : World) (port : Nat) : Nat → List Call → List Call
  | 0, h => h
  | n + 1, h =>
    let h1 := h ++ [Call.printf "Stats for port %u\n" [port], Call.eth_stats_get port]
    let stats := w.stats h1 port
    print_stats_from w port n
      (h1 ++ [Call.printf "Rx: %9llu Tx: %9llu Dropped: %9llu\n"
                [stats.ipackets, stats.opackets, stats.imissed]])

/-- Lines 210-222: `static void print_stats(void)`.  The body names `port`,
which the function does not declare (its loop variable is `i`); it is taken
as a parameter.  Entering the function is recorded as `Call.print_stats`. -/
def print_stats (w : World) (port : Nat) (h : List Call) : List Call :=
  let nb_port := w.dev_count % 256
  print_stats_from w port nb_port (h ++ [Call.print_stats])

/-- The state `signal_handler` works on: the flag `quit` and the output so far. -/
structure HandlerState where
  quit : Bool
  out : List Call

/-- Lines 229-236: `static void signal_handler(int sig)`. -/
def signal_handler (w : World) (port : Nat) (sig : Int) (s : HandlerState) : HandlerState :=
  if sig = SIGINT ∨ sig = SIGTERM then
    let out1 := s.out ++ [Call.printf "Catching %d signal! Going to quit...\n" []]
    let quit := true
    { quit := quit, out := print_stats w port out1 }
  else s

/-- Deliver the signals `sigs` one after the other. -/
def deliver (w : World) (port : Nat) : List Int → HandlerState → HandlerState
  | [], s => s
  | sig :: rest, s => deliver w port rest (signal_handler w port sig s)

/-- Number of deliveries out of `sigs` that change the value of `quit`. -/
def quit_transitions (w : World) (port : Nat) : List Int → HandlerState → Nat
  | [], _ => 0
  | sig :: rest, s =>
    (if (signal_handler w port sig s).quit = s.quit then 0 else 1) +
      quit_transitions w port rest (signal_handler w port sig s)

/-- Number of times `print_stats` was entered in a history. -/
def stats_reports : List Call → Nat
  | [] => 0
  | Call.print_stats :: t => stats_reports t + 1
  | _ :: t => stats_reports t

/-! ## main -/

/-- How the process ends: `rte_exit(EXIT_FAILURE, fmt, args)` or `return code`. -/
inductive Exit where
  | fatal (fmt : String) (args : List Nat)
  | returned (code : Int)
  deriving DecidableEq, Repr

/-- Lines 274-276: `for(portid = 0; portid < n_ports; portid++) if(port_init(...) != 0) rte_exit(...)`,
for the iterations left (`portid` and `n_ports` are both 8-bit).  `PRIu8` is
`"u"`. -/
def init_ports (w : World) : Nat → Nat → List Call → Exit × List Call
  | 0, _, h => (Exit.returned 0, h)
  | n + 1, portid, h =>
    let r := port_init w portid h
    if r.1 ≠ 0 then (Exit.fatal "Fail to init port %u\n" [portid], r.2)
    else init_ports w n (portid + 1) r.2

/-- Lines 239-279: `int main(int argc, char *argv[])`.  The test of line 262
reads `nb_ports`, a name `main` does not declare; it is read as the device
count, which is what the one declaration of that name (in `lcore_main`) holds. -/
def main (w : World) : Exit × List Call :=
  let ret := w.eal_ret
  let h0 := [Call.eal_setup ret]
  if ret < 0 then (Exit.fatal "Invalid EAL parameters\n" [], h0)
  else
    let h1 := h0 ++ [Call.write_quit false, Call.signal SIGINT, Call.signal SIGTERM]
    let n_ports := w.dev_count % 256
    let nb_ports := w.dev_count % 256
    if n_ports < 2 ∨ (nb_ports &&& 1) ≠ 0 then (Exit.fatal "Invalid port number\n" [], h1)
    else
      let h2 := h1 ++ [Call.rte_log "Number of ports: %u\n" [n_ports]]
      let ok := w.pool_ok h2
      let h3 := h2 ++ [Call.pktmbuf_pool_create (NUM_MBUFS * n_ports) MBUF_CACHE_SIZE ok]
      if !ok then (Exit.fatal "Fail to create mbuf pool\n" [], h3)
      else init_ports w n_ports 0 h3

/-! ## Observations on histories -/

/-- The buffers handed to `rte_pktmbuf_free` in a history, in call order. -/
def released : List Call → List Mbuf
  | [] => []
  | Call.pktmbuf_free m :: t => m :: released t
  | _ :: t => released t

/-- The ports whose link was queried, in call order. -/
def link_queries : List Call → List Nat
  | [] => []
  | Call.eth_link_get p :: t => p :: link_queries t
  | _ :: t => link_queries t

/-- The ports on which `rte_eth_rx_burst` was called, in call order. -/
def rx_ports : List Call → List Nat
  | [] => []
  | Call.eth_rx_burst p _ _ _ :: t => p :: rx_ports t
  | _ :: t => rx_ports t

/-- The transmit calls of a history: port, queue, buffers offered, count. -/
def tx_calls : List Call → List (Nat × Nat × List Mbuf × Nat)
  | [] => []
  | Call.eth_tx_burst p q bufs n _ :: t => (p, q, bufs, n) :: tx_calls t
  | _ :: t => tx_calls t

/-- Number of reads of the flag `quit` in a history. -/
def quit_reads : List Call → Nat
  | [] => 0
  | Call.read_quit _ :: t => quit_reads t + 1
  | _ :: t => quit_reads t

/-! ## Concrete worlds -/

/-- Two ports with link up, the forwarding lcore, nothing to receive, the
transmit side accepts everything and every driver call succeeds. -/
def quiet : World where
  lcore_id := 1
  dev_count := 2
  link := fun _ => { link_speed := 10000, link_status := ETH_LINK_UP }
  quit := fun _ => false
  rx_burst := fun _ _ _ _ => []
  tx_burst := fun _ _ _ _ n => n
  eal_ret := 0
  pool_ok := fun _ => true
  dev_configure := fun _ _ => 0
  adjust_desc := fun _ _ r t => (0, r, t)
  rx_queue_setup := fun _ _ _ _ => 0
  tx_queue_setup := fun _ _ _ _ => 0
  dev_start := fun _ _ => 0
  macaddr := fun _ => [0, 0, 0, 0, 0, 0]
  stats := fun _ _ => { ipackets := 0, opackets := 0, imissed := 0 }

/-- Ten buffers as handed out by a receive call. -/
def ten_bufs : List Mbuf := [100, 101, 102, 103, 104, 105, 106, 107, 108, 109]

/-- Port 0 receives `ten_bufs`, port 1 nothing; transmit accepts everything. -/
def inject10 : World := { quiet with rx_burst := fun _ p _ _ => if p = 0 then ten_bufs else [] }

/-- As `inject10`, but the transmit queue accepts only 7 buffers of a burst. -/
def accept7 : World := { inject10 with tx_burst := fun _ _ _ _ _ => 7 }

/-- As `quiet`, but every receive call returns one buffer. -/
def busy : World := { quiet with rx_burst := fun _ _ _ _ => [7] }

/-- The termination signal arrives right after a loop test that still read
`quit` as clear: the flag is set as soon as one call is on record. -/
def signal_after_test : World := { quiet with quit := fun h => decide (1 ≤ h.length) }

/-- The termination signal arrives during the sweep, after the receive call on
port 0: the flag is set as soon as two calls are on record. -/
def signal_mid_sweep : World := { quiet with quit := fun h => decide (2 ≤ h.length) }

/-- As `quiet`, but the link of port 0 is down. -/
def port0_down : World :=
  { quiet with link := fun p =>
      { link_speed := 0, link_status := if p = 0 then ETH_LINK_DOWN else ETH_LINK_UP } }

/-- As `quiet`, but `lcore_main` runs on lcore 2, which is not
`forwarding_lcore`; `quit` is set once eight calls are on record. -/
def other_lcore : World :=
  { quiet with lcore_id := 2, quit := fun h => decide (8 ≤ h.length) }

/-- As `quiet`, but `rte_eth_dev_start` fails on port 1. -/
def start_fails_on_1 : World :=
  { quiet with dev_start := fun _ p => if p = 1 then -5 else 0 }

/-- True for a call of one of the five set-up steps of `port_init` (device
configure, descriptor adjustment, receive-queue setup, transmit-queue setup,
device start) that reported failure, a negative return. -/
def step_failed : Call → Bool
  | Call.eth_dev_configure _ _ _ ret => decide (ret < 0)
  | Call.eth_dev_adjust_nb_rx_tx_desc _ _ _ ret => decide (ret < 0)
  | Call.eth_rx_queue_setup _ _ _ ret => decide (ret < 0)
  | Call.eth_tx_queue_setup _ _ _ ret => decide (ret < 0)
  | Call.eth_dev_start _ ret => decide (ret < 0)
  | _ => false

/-- Position of a call in the order of the steps of `port_init`: configure 1,
adjust 2, receive queue 3, transmit queue 4, start 5, MAC query 6, MAC line
7, worker launch 8, wait 9; 0 for a call `port_init` does not make. -/
def step_rank : Call → Nat
  | Call.eth_dev_configure _ _ _ _ => 1
  | Call.eth_dev_adjust_nb_rx_tx_desc _ _ _ _ => 2
  | Call.eth_rx_queue_setup _ _ _ _ => 3
  | Call.eth_tx_queue_setup _ _ _ _ => 4
  | Call.eth_dev_start _ _ => 5
  | Call.eth_macaddr_get _ => 6
  | Call.printf _ _ => 7
  | Call.eal_mp_remote_launch => 8
  | Call.eal_mp_wait_lcore => 9
  | _ => 0

/-! ## Lemmas -/

theorem released_append (s t : List Call) : released (s ++ t) = released s ++ released t := by
  induction s with
  | nil => rfl
  | cons e s ih => cases e <;> simp [released, ih]

theorem free_unsent_spec (bufs : List Mbuf) (nb_rx : Nat) :
    ∀ (fuel buf : Nat) (h : List Call), nb_rx - buf ≤ fuel →
      free_unsent bufs nb_rx fuel buf h =
        h ++ (List.range' buf (nb_rx - buf)).map (fun i => Call.pktmbuf_free (bufs.getD i 0)) := by
  intro fuel
  induction fuel with
  | zero =>
    intro buf h hf
    have : nb_rx - buf = 0 := by omega
    simp [free_unsent, this]
  | succ n ih =>
    intro buf h hf
    by_cases hb : buf < nb_rx
    · have e : nb_rx - buf = (nb_rx - (buf + 1)) + 1 := by omega
      rw [free_unsent, if_pos hb, ih (buf + 1) _ (by omega), e, List.range'_succ]
      simp
    · have : nb_rx - buf = 0 := by omega
      simp [free_unsent, hb, this]

theorem pair_mod_two (i : Nat) : pair i % 2 = (i + 1) % 2 := by
  unfold pair
  rw [Nat.xor_mod_two_eq]

theorem pair_div_two (i : Nat) : pair i / 2 = i / 2 := by
  unfold pair
  rw [Nat.xor_div_two]
  simp

theorem released_map_free (f : Nat → Mbuf) (l : List Nat) :
    released (l.map (fun i => Call.pktmbuf_free (f i))) = l.map f := by
  induction l with
  | nil => rfl
  | cons x l ih => simp [released, ih]

theorem map_getD_range (b : List Mbuf) (a : Nat) :
    (List.range' a (b.length - a)).map (fun i => b.getD i 0) = b.drop a := by
  apply List.ext_getElem
  · simp
  · intro n h1 h2
    simp at h1 h2
    simp [List.getD_eq_getElem?_getD]
    rw [List.getElem?_eq_getElem (by omega)]
    simp

/-- C2: the pairing `pair(i) = i xor 1` is an involution without fixed points, for
every port id `i`, and maps 8-bit port ids to 8-bit port ids. -/
theorem pair_involution_no_fixed_point (i : Nat) :
    pair (pair i) = i ∧ pair i ≠ i ∧ pair (i % 256) < 256 := by
  have h1 := pair_mod_two i
  have h2 := pair_div_two i
  have h3 := pair_mod_two (pair i)
  have h4 := pair_div_two (pair i)
  have h5 := pair_mod_two (i % 256)
  have h6 := pair_div_two (i % 256)
  refine ⟨by omega, by omega, by omega⟩
theorem forward_port_empty (w : World) (port : Nat) (h : List Call)
    (hb : w.rx_burst h port 0 BURST_SIZE = []) :
    forward_port w port h = h ++ [Call.eth_rx_burst port 0 BURST_SIZE []] := by
  simp [forward_port, hb]

theorem forward_port_burst (w : World) (port : Nat) (h : List Call)
    (hb : w.rx_burst h port 0 BURST_SIZE ≠ []) :
    forward_port w port h =
      h ++ (Call.eth_rx_burst port 0 BURST_SIZE (w.rx_burst h port 0 BURST_SIZE) ::
        Call.eth_tx_burst (pair port) 0 (w.rx_burst h port 0 BURST_SIZE)
          (w.rx_burst h port 0 BURST_SIZE).length
          (w.tx_burst (h ++ [Call.eth_rx_burst port 0 BURST_SIZE (w.rx_burst h port 0 BURST_SIZE)])
            (pair port) 0 (w.rx_burst h port 0 BURST_SIZE)
            (w.rx_burst h port 0 BURST_SIZE).length) ::
        ((w.rx_burst h port 0 BURST_SIZE).drop
          (w.tx_burst (h ++ [Call.eth_rx_burst port 0 BURST_SIZE (w.rx_burst h port 0 BURST_SIZE)])
            (pair port) 0 (w.rx_burst h port 0 BURST_SIZE)
            (w.rx_burst h port 0 BURST_SIZE).length)).map Call.pktmbuf_free) := by
  generalize hbv : w.rx_burst h port 0 BURST_SIZE = b at hb ⊢
  have hlen : b.length ≠ 0 := by
    intro h0; exact hb (List.length_eq_zero.mp h0)
  simp only [forward_port, hbv, if_neg hlen]
  generalize w.tx_burst (h ++ [Call.eth_rx_burst port 0 BURST_SIZE b]) (pair port) 0 b b.length = a
  by_cases ha : a < b.length
  · rw [if_pos ha, free_unsent_spec b b.length b.length a _ (by omega)]
    have := map_getD_range b a
    rw [← this]
    simp [List.map_map, Function.comp_def]
  · rw [if_neg ha, List.drop_of_length_le (by omega)]
    simp

/-- C1: when the receive call of a burst returned `r >= 1` buffers `b` and the
transmit call on the paired port accepted `a <= r` of them, the loop body
releases exactly the buffers at positions `a, a+1, ..., r-1`, each once and in
that order (`r - a` release calls), so accepted + released = received, and no
buffer at a position below `a` is released. -/
theorem burst_release_accounting (w : World) (h : List Call) (port : Nat)
    (b : List Mbuf) (a : Nat)
    (hrx : w.rx_burst h port 0 BURST_SIZE = b)
    (htx : w.tx_burst (h ++ [Call.eth_rx_burst port 0 BURST_SIZE b]) (pair port) 0 b b.length = a)
    (hr1 : 1 ≤ b.length) (ha : a ≤ b.length) :
    ∃ d, forward_port w port h = h ++ d ∧
      released d = (List.range' a (b.length - a)).map (fun i => b.getD i 0) ∧
      (released d).length = b.length - a ∧
      a + (released d).length = b.length ∧
      (b.Nodup → ∀ i, i < a → b.getD i 0 ∉ released d) := by
  have hb : w.rx_burst h port 0 BURST_SIZE ≠ [] := by
    rw [hrx]; intro h0; rw [h0] at hr1; simp at hr1
  have key := forward_port_burst w port h hb
  rw [hrx, htx] at key
  refine ⟨_, key, ?_⟩
  have hrel : released (Call.eth_rx_burst port 0 BURST_SIZE b ::
      Call.eth_tx_burst (pair port) 0 b b.length a :: (b.drop a).map Call.pktmbuf_free)
      = b.drop a := by
    have := released_map_free (fun m => m) (b.drop a)
    simpa [released] using this
  rw [hrel]
  refine ⟨(map_getD_range b a).symm, by simp, by simp; omega, ?_⟩
  intro hnd i hi hmem
  have h1 : b.getD i 0 ∈ b.take a := by
    rw [List.getD_eq_getElem?_getD, List.getElem?_eq_getElem (by omega)]
    simp only [Option.getD_some]
    rw [List.mem_take_iff_getElem]
    exact ⟨i, by simp; omega, rfl⟩
  exact List.disjoint_take_drop hnd (le_refl a) h1 hmem

/-- C1 at the burst of `accept7`: 10 received, 7 accepted, 3 released. -/
theorem burst_release_accounting_witness :
    ∃ d, forward_port accept7 0 [] = [] ++ d ∧
      released d = (List.range' 7 (ten_bufs.length - 7)).map (fun i => ten_bufs.getD i 0) ∧
      (released d).length = ten_bufs.length - 7 ∧
      7 + (released d).length = ten_bufs.length ∧
      (ten_bufs.Nodup → ∀ i, i < 7 → ten_bufs.getD i 0 ∉ released d) :=
  burst_release_accounting accept7 [] 0 ten_bufs 7 rfl rfl (by decide) (by decide)

theorem sweep_from_segments (w : World) :
    ∀ (k port : Nat) (h : List Call), ∃ segs : List (List Call),
      sweep_from w k port h = h ++ segs.flatten ∧ segs.length = k ∧
      ∀ j, j < k →
        forward_port w (port + j) (h ++ (segs.take j).flatten) =
          (h ++ (segs.take j).flatten) ++ segs.getD j [] := by
  intro k
  induction k with
  | zero => intro port h; exact ⟨[], by simp [sweep_from], rfl, by intro j hj; omega⟩
  | succ k ih =>
    intro port h
    have hseg : ∃ seg, forward_port w port h = h ++ seg := by
      by_cases hb : w.rx_burst h port 0 BURST_SIZE = []
      · exact ⟨_, forward_port_empty w port h hb⟩
      · exact ⟨_, forward_port_burst w port h hb⟩
    obtain ⟨seg, hseg⟩ := hseg
    obtain ⟨segs, h1, h2, h3⟩ := ih (port + 1) (h ++ seg)
    refine ⟨seg :: segs, ?_, by simp [h2], ?_⟩
    · rw [sweep_from, hseg, h1]; simp
    · intro j hj
      cases j with
      | zero => simpa using hseg
      | succ j =>
        have := h3 j (by omega)
        simp only [List.take_succ_cons, List.flatten_cons, List.getD_cons_succ]
        rw [← List.append_assoc, show port + (j + 1) = port + 1 + j by omega]
        exact this

/-- C4: one sweep over ports `0 .. n-1` extends the history by one segment per
port, in port order.  The segment of a port `p` whose receive call (queue 0,
at most `BURST_SIZE` buffers) returned the empty burst is that receive call
alone: no transmit, no release.  The segment of a port whose receive call
returned `b` non-empty is the receive call, then exactly one transmit call, on
queue 0 of port `pair p`, offering `b` in the same order with count
`b.length`, then release calls only.  With 2 ports and 10 buffers on port 0,
port 1 is offered exactly those 10 buffers in the original order. -/
theorem sweep_forwards_each_burst (w : World) (n : Nat) (h : List Call) :
    (∃ segs : List (List Call),
      sweep w n h = h ++ segs.flatten ∧ segs.length = n ∧
      ∀ p, p < n →
        (w.rx_burst (h ++ (segs.take p).flatten) p 0 BURST_SIZE = [] ∧
          segs.getD p [] = [Call.eth_rx_burst p 0 BURST_SIZE []]) ∨
        (∃ (b : List Mbuf) (a : Nat),
          w.rx_burst (h ++ (segs.take p).flatten) p 0 BURST_SIZE = b ∧ b ≠ [] ∧
          segs.getD p [] =
            Call.eth_rx_burst p 0 BURST_SIZE b ::
            Call.eth_tx_burst (pair p) 0 b b.length a ::
            (b.drop a).map Call.pktmbuf_free ∧
          tx_calls (segs.getD p []) = [(pair p, 0, b, b.length)])) ∧
    sweep inject10 2 [] =
      [Call.eth_rx_burst 0 0 BURST_SIZE ten_bufs,
       Call.eth_tx_burst 1 0 ten_bufs 10 10,
       Call.eth_rx_burst 1 0 BURST_SIZE []] := by
  refine ⟨?_, by decide⟩
  obtain ⟨segs, h1, h2, h3⟩ := sweep_from_segments w n 0 h
  refine ⟨segs, h1, h2, ?_⟩
  intro p hp
  have hf := h3 p hp
  rw [Nat.zero_add] at hf
  generalize h ++ (segs.take p).flatten = hp' at hf ⊢
  by_cases hb : w.rx_burst hp' p 0 BURST_SIZE = []
  · left
    rw [forward_port_empty w p hp' hb] at hf
    exact ⟨hb, (List.append_cancel_left hf).symm⟩
  · right
    rw [forward_port_burst w p hp' hb] at hf
    refine ⟨_, _, rfl, hb, (List.append_cancel_left hf).symm, ?_⟩
    rw [← List.append_cancel_left hf]
    have : ∀ l : List Mbuf, tx_calls (l.map Call.pktmbuf_free) = [] := by
      intro l; induction l with
      | nil => rfl
      | cons x l ih => simpa [tx_calls] using ih
    simp only [tx_calls, this]

theorem rx_ports_append (s t : List Call) : rx_ports (s ++ t) = rx_ports s ++ rx_ports t := by
  induction s with
  | nil => rfl
  | cons e s ih => cases e <;> simp [rx_ports, ih]

theorem tx_calls_append (s t : List Call) : tx_calls (s ++ t) = tx_calls s ++ tx_calls t := by
  induction s with
  | nil => rfl
  | cons e s ih => cases e <;> simp [tx_calls, ih]

theorem quit_reads_append (s t : List Call) : quit_reads (s ++ t) = quit_reads s + quit_reads t := by
  induction s with
  | nil => simp [quit_reads]
  | cons e s ih => cases e <;> simp [quit_reads, ih]; omega

theorem observe_map_free (l : List Mbuf) :
    rx_ports (l.map Call.pktmbuf_free) = [] ∧ tx_calls (l.map Call.pktmbuf_free) = [] ∧
      quit_reads (l.map Call.pktmbuf_free) = 0 := by
  induction l with
  | nil => exact ⟨rfl, rfl, rfl⟩
  | cons x l ih => simpa [rx_ports, tx_calls, quit_reads] using ih

theorem forward_port_observe (w : World) (port : Nat) (h : List Call) :
    rx_ports (forward_port w port h) = rx_ports h ++ [port] ∧
    quit_reads (forward_port w port h) = quit_reads h ∧
    (tx_calls (forward_port w port h)).length ≤ (tx_calls h).length + 1 ∧
    h <+: forward_port w port h := by
  by_cases hb : w.rx_burst h port 0 BURST_SIZE = []
  · rw [forward_port_empty w port h hb]
    simp [rx_ports_append, quit_reads_append, tx_calls_append, rx_ports, quit_reads, tx_calls]
  · rw [forward_port_burst w port h hb]
    simp [rx_ports_append, quit_reads_append, tx_calls_append, rx_ports, quit_reads, tx_calls,
      observe_map_free, -List.map_drop]

theorem sweep_from_observe (w : World) :
    ∀ (k port : Nat) (h : List Call),
      rx_ports (sweep_from w k port h) = rx_ports h ++ List.range' port k ∧
      quit_reads (sweep_from w k port h) = quit_reads h ∧
      (tx_calls (sweep_from w k port h)).length ≤ (tx_calls h).length + k ∧
      h <+: sweep_from w k port h := by
  intro k
  induction k with
  | zero => intro port h; simp [sweep_from]
  | succ k ih =>
    intro port h
    obtain ⟨a1, a2, a3, a4⟩ := forward_port_observe w port h
    obtain ⟨b1, b2, b3, b4⟩ := ih (port + 1) (forward_port w port h)
    rw [sweep_from]
    refine ⟨?_, by omega, by omega, a4.trans b4⟩
    rw [b1, a1, List.range'_succ]; simp

theorem forward_loop_observe (w : World) (n : Nat) :
    ∀ (fuel : Nat) (h t : List Call), forward_loop w n fuel h = some t →
      ∃ k, quit_reads t = quit_reads h + (k + 1) ∧
        rx_ports t = rx_ports h ++ (List.replicate k (List.range n)).flatten := by
  intro fuel
  induction fuel with
  | zero => intro h t ht; simp [forward_loop] at ht
  | succ fuel ih =>
    intro h t ht
    rw [forward_loop] at ht
    by_cases hq : w.quit h = true
    · simp [hq] at ht
      subst ht
      exact ⟨0, by simp [quit_reads_append, quit_reads], by simp [rx_ports_append, rx_ports]⟩
    · simp [hq] at ht
      obtain ⟨k, h1, h2⟩ := ih _ t ht
      obtain ⟨b1, b2, _, _⟩ := sweep_from_observe w n 0 (h ++ [Call.read_quit false])
      refine ⟨k + 1, ?_, ?_⟩
      · rw [h1]; unfold sweep; rw [b2]; simp [quit_reads_append, quit_reads]; omega
      · rw [h2]; unfold sweep; rw [b1]
        simp [rx_ports_append, rx_ports, List.replicate_succ, List.range_eq_range']

theorem check_link_status_returns (w : World) (n : Nat) (hn : n ≤ 255) :
    ∀ (fuel port : Nat) (h : List Call), n - port < fuel →
      ∃ ret t, check_link_status_from w n fuel port h = some (ret, t) ∧
        rx_ports t = rx_ports h ∧ tx_calls t = tx_calls h ∧ released t = released h := by
  intro fuel
  induction fuel with
  | zero => intro port h hf; omega
  | succ fuel ih =>
    intro port h hf
    rw [check_link_status_from]
    by_cases hp : port < n
    · have hmod : (port + 1) % 256 = port + 1 := Nat.mod_eq_of_lt (by omega)
      by_cases hd : (w.link port).link_status = ETH_LINK_DOWN
      · simp only [if_pos hp, if_pos hd]
        exact ⟨_, _, rfl, by simp [rx_ports_append, rx_ports],
          by simp [tx_calls_append, tx_calls], by simp [released_append, released]⟩
      · simp only [if_pos hp, if_neg hd, hmod]
        obtain ⟨ret, t, h1, h2, h3, h4⟩ := ih (port + 1)
          (h ++ [Call.eth_link_get port] ++
            [Call.rte_log "Port %u link is up and speed %u\n" [port, (w.link port).link_speed]])
          (by omega)
        refine ⟨ret, t, h1, ?_, ?_, ?_⟩
        · rw [h2]; simp [rx_ports_append, rx_ports]
        · rw [h3]; simp [tx_calls_append, tx_calls]
        · rw [h4]; simp [released_append, released]
    · simp only [if_neg hp]
      exact ⟨_, _, rfl, rfl, rfl, rfl⟩

theorem lcore_main_quit_set (w : World) (fuel : Nat) (h : List Call)
    (hq : ∀ a, w.quit a = true) :
    ∃ t, lcore_main w (fuel + 1) h = some (t ++ [Call.read_quit true]) ∧
      rx_ports t = rx_ports h ∧ tx_calls t = tx_calls h ∧ released t = released h := by
  unfold lcore_main
  have hn : w.dev_count % 256 ≤ 255 := by omega
  dsimp only
  generalize hh1 : (if w.lcore_id ≠ forwarding_lcore then
      h ++ [Call.rte_log "lcore %u exiting\n" [w.lcore_id]] else h) = h1
  have e1 : rx_ports h1 = rx_ports h ∧ tx_calls h1 = tx_calls h ∧ released h1 = released h := by
    rw [← hh1]
    split_ifs <;>
      simp [rx_ports_append, rx_ports, tx_calls_append, tx_calls, released_append, released]
  obtain ⟨ret, t, c1, c2, c3, c4⟩ :=
    check_link_status_returns w (w.dev_count % 256) hn 256 0 h1 (by omega)
  unfold check_link_status
  rw [c1]
  dsimp only
  refine ⟨if ret < 0 then t ++ [Call.rte_log "Some ports are down\n" [w.lcore_id]] else t,
    by simp [forward_loop, hq], ?_⟩
  split_ifs <;>
    simp [rx_ports_append, rx_ports, tx_calls_append, tx_calls, released_append, released,
      c2, c3, c4, e1]

/-- C8, as amended: (1) the flag `quit` is read once per sweep, not once per
port: a run of the loop that returns has made `k + 1` reads of `quit` and `k`
sweeps, each with one receive call on every port `0 .. n-1`; (2) if `quit` is
set when the loop is reached, the loop returns after that one read, with no
receive, transmit or release call, and so does `lcore_main` as a whole when
`quit` is set from the start (last part); (3) if `quit`, once set, stays set, and it
is set at some point `m` of a sweep after the loop test that started the
sweep, then after `m` the worker makes receive calls only on remaining ports
of that sweep (a final segment of `0 .. n-1`, so at most `n` receive and at
most `n` transmit calls, and fewer than `n` receive calls when a receive call
of the sweep precedes `m`), does not read `quit` inside the sweep, and leaves
the loop at the next test. -/
theorem cancellation_once_per_sweep (w : World) (n : Nat) :
    (∀ (fuel : Nat) (h t : List Call), forward_loop w n fuel h = some t →
      ∃ k, quit_reads t = quit_reads h + (k + 1) ∧
        rx_ports t = rx_ports h ++ (List.replicate k (List.range n)).flatten) ∧
    (∀ (fuel : Nat) (h : List Call), w.quit h = true →
      forward_loop w n (fuel + 1) h = some (h ++ [Call.read_quit true])) ∧
    (∀ (fuel : Nat) (h m : List Call),
      (∀ a b, w.quit a = true → w.quit (a ++ b) = true) →
      w.quit h = false →
      h ++ [Call.read_quit false] <+: m →
      m <+: sweep w n (h ++ [Call.read_quit false]) →
      w.quit m = true →
      ∃ d, forward_loop w n (fuel + 2) h = some (m ++ d ++ [Call.read_quit true]) ∧
        rx_ports d <:+ List.range n ∧
        (rx_ports d).length ≤ n ∧
        (tx_calls d).length ≤ n ∧
        quit_reads d = 0 ∧
        (rx_ports m ≠ rx_ports h → (rx_ports d).length < n)) ∧
    (∀ (fuel : Nat) (h : List Call), (∀ a, w.quit a = true) →
      ∃ t, lcore_main w (fuel + 1) h = some (t ++ [Call.read_quit true]) ∧
        rx_ports t = rx_ports h ∧ tx_calls t = tx_calls h ∧ released t = released h) := by
  refine ⟨forward_loop_observe w n, ?_, ?_, fun fuel h hq => lcore_main_quit_set w fuel h hq⟩
  · intro fuel h hq
    simp [forward_loop, hq]
  · intro fuel h m hmono hq hm1 hm2 hset
    obtain ⟨x, hx⟩ := hm1
    obtain ⟨d, hd⟩ := hm2
    have hs : w.quit (sweep w n (h ++ [Call.read_quit false])) = true := by
      rw [← hd]; exact hmono m d hset
    obtain ⟨b1, b2, b3, _⟩ := sweep_from_observe w n 0 (h ++ [Call.read_quit false])
    have e : sweep_from w n 0 (h ++ [Call.read_quit false]) =
        h ++ [Call.read_quit false] ++ x ++ d := by
      have := hd; unfold sweep at this; rw [← this, ← hx]
    rw [e] at b1 b2 b3
    simp only [rx_ports_append, quit_reads_append, tx_calls_append, List.length_append,
      List.append_assoc] at b1 b2 b3
    have r1 : rx_ports x ++ rx_ports d = List.range' 0 n := by
      have := List.append_cancel_left b1
      simpa [rx_ports] using this
    have hlen : (rx_ports x).length + (rx_ports d).length = n := by
      have := congrArg List.length r1
      simpa using this
    refine ⟨d, ?_, ?_, by omega, by omega, by omega, ?_⟩
    · rw [forward_loop]
      simp only [hq]
      rw [show (!false) = true from rfl, if_pos rfl, forward_loop]
      simp only [hs]
      rw [show (!true) = false from rfl, if_neg (by decide), hd]
    · exact ⟨rx_ports x, by rw [r1, List.range_eq_range']⟩
    · intro hne
      have : rx_ports x ≠ [] := by
        intro h0
        apply hne
        rw [← hx]
        simp [rx_ports_append, rx_ports, h0]
      have : 0 < (rx_ports x).length := List.length_pos.mpr this
      omega

/-- C8 (3) for the signal that arrives after the receive call on port 0 of 2. -/
theorem cancellation_once_per_sweep_witness :
    ∃ d, forward_loop signal_mid_sweep 2 (0 + 2) [] =
        some ([Call.read_quit false, Call.eth_rx_burst 0 0 BURST_SIZE []] ++ d ++
          [Call.read_quit true]) ∧
      rx_ports d <:+ List.range 2 ∧
      (rx_ports d).length ≤ 2 ∧
      (tx_calls d).length ≤ 2 ∧
      quit_reads d = 0 ∧
      (rx_ports [Call.read_quit false, Call.eth_rx_burst 0 0 BURST_SIZE []] ≠ rx_ports [] →
        (rx_ports d).length < 2) :=
  (cancellation_once_per_sweep signal_mid_sweep 2).2.2.1 0 []
    [Call.read_quit false, Call.eth_rx_burst 0 0 BURST_SIZE []]
    (by intro a b ha
        simp only [signal_mid_sweep, decide_eq_true_eq, List.length_append] at ha ⊢
        omega)
    rfl
    ⟨[Call.eth_rx_burst 0 0 BURST_SIZE []], rfl⟩
    ⟨[Call.eth_rx_burst 1 0 BURST_SIZE []], rfl⟩
    rfl

/-- C8 as stated fails: with 2 ports, when `quit` is set right after the loop
test of a sweep, 2 further receive calls follow, which is not fewer than 2. -/
theorem cancellation_not_fewer_than_n :
    signal_after_test.quit [] = false ∧
    signal_after_test.quit [Call.read_quit false] = true ∧
    forward_loop signal_after_test 2 2 [] =
      some ([Call.read_quit false] ++
        [Call.eth_rx_burst 0 0 BURST_SIZE [], Call.eth_rx_burst 1 0 BURST_SIZE [],
         Call.read_quit true]) ∧
    (rx_ports [Call.eth_rx_burst 0 0 BURST_SIZE [], Call.eth_rx_burst 1 0 BURST_SIZE [],
         Call.read_quit true]).length = 2 :=
  ⟨rfl, rfl, rfl, rfl⟩

theorem link_queries_append (s t : List Call) :
    link_queries (s ++ t) = link_queries s ++ link_queries t := by
  induction s with
  | nil => rfl
  | cons e s ih => cases e <;> simp [link_queries, ih]

theorem check_link_status_all_up (w : World) (n : Nat) (hn : n ≤ 255) :
    ∀ (fuel port : Nat) (h : List Call), n - port < fuel →
      (∀ p, port ≤ p → p < n → (w.link p).link_status ≠ ETH_LINK_DOWN) →
      ∃ t, check_link_status_from w n fuel port h = some (0, t) ∧
        link_queries t = link_queries h ++ List.range' port (n - port) := by
  intro fuel
  induction fuel with
  | zero => intro port h hf; omega
  | succ fuel ih =>
    intro port h hf hup
    rw [check_link_status_from]
    by_cases hp : port < n
    · have hu := hup port (le_refl _) hp
      have hmod : (port + 1) % 256 = port + 1 := Nat.mod_eq_of_lt (by omega)
      simp only [if_pos hp, if_neg hu, hmod]
      obtain ⟨t, h1, h2⟩ := ih (port + 1) _ (by omega)
        (fun p h1 h2 => hup p (by omega) h2)
      refine ⟨t, h1, ?_⟩
      rw [h2, show n - port = (n - (port + 1)) + 1 by omega, List.range'_succ]
      simp [link_queries_append, link_queries]
    · have : n - port = 0 := by omega
      simp [if_neg hp, this]

theorem check_link_status_first_down (w : World) (n : Nat) (hn : n ≤ 255) (d : Nat)
    (hd : d < n) (hdown : (w.link d).link_status = ETH_LINK_DOWN) :
    ∀ (fuel port : Nat) (h : List Call), d - port < fuel → port ≤ d →
      (∀ p, port ≤ p → p < d → (w.link p).link_status ≠ ETH_LINK_DOWN) →
      ∃ t, check_link_status_from w n fuel port h = some (-1, t) ∧
        link_queries t = link_queries h ++ List.range' port (d - port + 1) := by
  intro fuel
  induction fuel with
  | zero => intro port h hf; omega
  | succ fuel ih =>
    intro port h hf hpd hup
    rw [check_link_status_from]
    have hp : port < n := by omega
    by_cases he : port = d
    · subst he
      simp only [if_pos hp, if_pos hdown]
      refine ⟨_, rfl, ?_⟩
      simp [link_queries_append, link_queries]
    · have hu := hup port (le_refl _) (by omega)
      have hmod : (port + 1) % 256 = port + 1 := Nat.mod_eq_of_lt (by omega)
      simp only [if_pos hp, if_neg hu, hmod]
      obtain ⟨t, h1, h2⟩ := ih (port + 1) _ (by omega) (by omega)
        (fun p h1 h2 => hup p (by omega) h2)
      refine ⟨t, h1, ?_⟩
      rw [h2, show d - port + 1 = (d - (port + 1) + 1) + 1 by omega]
      simp [link_queries_append, link_queries, List.range'_succ]

/-- C6, as amended: for a port count `n <= 255`, `check_link_status(n)` queries
the ports in increasing order from 0 and stops at the first port whose link is
down.  If no port is down it queries every port `0 .. n-1` exactly once and
returns 0; if `d` is the first port that is down it queries exactly the ports
`0 .. d`, each once, and returns -1, so the ports after `d` are not queried. -/
theorem link_check_stops_at_first_down (w : World) (n : Nat) (hn : n ≤ 255)
    (fuel : Nat) (hfuel : n < fuel) (h : List Call) :
    ((∀ p, p < n → (w.link p).link_status ≠ ETH_LINK_DOWN) →
      ∃ t, check_link_status w n fuel h = some (0, t) ∧
        link_queries t = link_queries h ++ List.range n) ∧
    (∀ d, d < n → (w.link d).link_status = ETH_LINK_DOWN →
      (∀ p, p < d → (w.link p).link_status ≠ ETH_LINK_DOWN) →
      ∃ t, check_link_status w n fuel h = some (-1, t) ∧
        link_queries t = link_queries h ++ List.range (d + 1)) := by
  constructor
  · intro hup
    obtain ⟨t, h1, h2⟩ := check_link_status_all_up w n hn fuel 0 h (by omega)
      (fun p _ hp => hup p hp)
    exact ⟨t, h1, by rw [h2, List.range_eq_range']; rfl⟩
  · intro d hd hdown hup
    obtain ⟨t, h1, h2⟩ := check_link_status_first_down w n hn d hd hdown fuel 0 h (by omega)
      (by omega) (fun p _ hp => hup p hp)
    exact ⟨t, h1, by rw [h2, List.range_eq_range']; rfl⟩

/-- C6 (amended) with two ports, port 0 down: only port 0 is queried. -/
theorem link_check_stops_at_first_down_witness :
    ∃ t, check_link_status port0_down 2 256 [] = some (-1, t) ∧
      link_queries t = link_queries [] ++ List.range (0 + 1) :=
  (link_check_stops_at_first_down port0_down 2 (by decide) 256 (by decide) []).2 0
    (by decide) rfl (fun p hp => absurd hp (Nat.not_lt_zero p))

/-- C6 as stated fails: with two ports and port 0 down, `check_link_status(2)`
queries port 0 and returns -1; port 1 is never queried. -/
theorem link_check_skips_ports_after_down :
    check_link_status port0_down 2 256 [] =
      some (-1, [Call.eth_link_get 0, Call.rte_log "Port %u link is down\n" [0]]) ∧
    link_queries [Call.eth_link_get 0, Call.rte_log "Port %u link is down\n" [0]] = [0] :=
  ⟨rfl, rfl⟩

/-- C7 fails on the code: on lcore 2 (`forwarding_lcore` is 1) `lcore_main` logs
"lcore 2 exiting" and then goes on: it queries the link of both ports and
runs the forwarding loop, with a receive call on port 0 and on port 1. -/
theorem lcore_main_other_lcore_forwards :
    other_lcore.lcore_id = 2 ∧ forwarding_lcore = 1 ∧
    lcore_main other_lcore 2 [] =
      some [Call.rte_log "lcore %u exiting\n" [2],
        Call.eth_link_get 0,
        Call.rte_log "Port %u link is up and speed %u\n" [0, 10000],
        Call.eth_link_get 1,
        Call.rte_log "Port %u link is up and speed %u\n" [1, 10000],
        Call.read_quit false,
        Call.eth_rx_burst 0 0 BURST_SIZE [],
        Call.eth_rx_burst 1 0 BURST_SIZE [],
        Call.read_quit true] :=
  ⟨rfl, rfl, rfl⟩

theorem stats_reports_append (s t : List Call) :
    stats_reports (s ++ t) = stats_reports s + stats_reports t := by
  induction s with
  | nil => simp [stats_reports]
  | cons e s ih => cases e <;> simp [stats_reports, ih]; omega

theorem print_stats_from_reports (w : World) (port : Nat) :
    ∀ (k : Nat) (h : List Call), stats_reports (print_stats_from w port k h) = stats_reports h := by
  intro k
  induction k with
  | zero => intro h; rfl
  | succ k ih =>
    intro h
    rw [print_stats_from]
    simp only [ih, stats_reports_append]
    simp [stats_reports]

theorem signal_handler_term (w : World) (port : Nat) (sig : Int) (s : HandlerState)
    (hs : sig = SIGINT ∨ sig = SIGTERM) :
    (signal_handler w port sig s).quit = true ∧
    stats_reports (signal_handler w port sig s).out = stats_reports s.out + 1 := by
  simp only [signal_handler, if_pos hs, print_stats, print_stats_from_reports,
    stats_reports_append]
  simp [stats_reports]

theorem deliver_reports (w : World) (port : Nat) :
    ∀ (sigs : List Int) (s : HandlerState), (∀ sig ∈ sigs, sig = SIGINT ∨ sig = SIGTERM) →
      stats_reports (deliver w port sigs s).out = stats_reports s.out + sigs.length ∧
      (sigs ≠ [] → (deliver w port sigs s).quit = true) ∧
      ((deliver w port sigs s).quit = true ∨ (deliver w port sigs s).quit = s.quit) ∧
      quit_transitions w port sigs s = if s.quit = false ∧ sigs ≠ [] then 1 else 0 := by
  intro sigs
  induction sigs with
  | nil => intro s _; simp [deliver, quit_transitions]
  | cons sig rest ih =>
    intro s hs
    obtain ⟨q1, r1⟩ := signal_handler_term w port sig s (hs sig (by simp))
    obtain ⟨a1, a2, a3, a4⟩ := ih (signal_handler w port sig s)
      (fun x hx => hs x (by simp [hx]))
    rw [deliver, quit_transitions]
    refine ⟨by rw [a1, r1]; simp; omega, ?_, ?_, ?_⟩
    · intro _
      rcases a3 with h | h
      · exact h
      · rw [h, q1]
    · left
      rcases a3 with h | h
      · exact h
      · rw [h, q1]
    · rw [a4, q1]
      cases hq : s.quit <;> simp

/-- C5, as amended: `signal_handler` has no guard against a repeated delivery.
Delivering `k >= 1` termination signals (SIGINT or SIGTERM), starting with
`quit` clear, produces `k` statistics reports, one call of `print_stats` per
delivery; `quit` is set afterwards and changes value exactly once, at the first
delivery. -/
theorem every_delivery_reports (w : World) (port : Nat) (sigs : List Int) (s : HandlerState)
    (hs : ∀ sig ∈ sigs, sig = SIGINT ∨ sig = SIGTERM) (hq : s.quit = false)
    (hne : sigs ≠ []) :
    stats_reports (deliver w port sigs s).out = stats_reports s.out + sigs.length ∧
    (deliver w port sigs s).quit = true ∧
    quit_transitions w port sigs s = 1 := by
  obtain ⟨a1, a2, _, a4⟩ := deliver_reports w port sigs s hs
  refine ⟨a1, a2 hne, ?_⟩
  rw [a4, if_pos ⟨hq, hne⟩]

/-- C5 (amended) for SIGINT followed by SIGTERM. -/
theorem every_delivery_reports_witness :
    stats_reports (deliver quiet 0 [SIGINT, SIGTERM] { quit := false, out := [] }).out =
      stats_reports [] + [SIGINT, SIGTERM].length ∧
    (deliver quiet 0 [SIGINT, SIGTERM] { quit := false, out := [] }).quit = true ∧
    quit_transitions quiet 0 [SIGINT, SIGTERM] { quit := false, out := [] } = 1 :=
  every_delivery_reports quiet 0 [SIGINT, SIGTERM] { quit := false, out := [] }
    (by intro sig hsig; simp at hsig; exact hsig) rfl (by simp)

/-- C5 as stated fails: two deliveries of SIGINT produce two statistics reports,
not one, and the second delivery is not a no-op: it doubles the output. -/
theorem second_delivery_reports_again :
    stats_reports (deliver quiet 0 [SIGINT, SIGINT] { quit := false, out := [] }).out = 2 ∧
    stats_reports (deliver quiet 0 [SIGINT] { quit := false, out := [] }).out = 1 ∧
    (deliver quiet 0 [SIGINT, SIGINT] { quit := false, out := [] }).out.length = 16 ∧
    (deliver quiet 0 [SIGINT] { quit := false, out := [] }).out.length = 8 :=
  ⟨rfl, rfl, rfl, rfl⟩

theorem rx_queues_setup_one (w : World) (port nb_rxd : Nat) (h : List Call) :
    rx_queues_setup w port nb_rxd 1 (1 + 1) 0 h =
      (if w.rx_queue_setup h port 0 nb_rxd < 0 then some (w.rx_queue_setup h port 0 nb_rxd)
        else none,
       h ++ [Call.eth_rx_queue_setup port 0 nb_rxd (w.rx_queue_setup h port 0 nb_rxd)]) := by
  simp only [rx_queues_setup]
  split_ifs <;> simp_all

theorem tx_queues_setup_one (w : World) (port nb_txd : Nat) (h : List Call) :
    tx_queues_setup w port nb_txd 1 (1 + 1) 0 h =
      (if w.tx_queue_setup h port 0 nb_txd < 0 then some (w.tx_queue_setup h port 0 nb_txd)
        else none,
       h ++ [Call.eth_tx_queue_setup port 0 nb_txd (w.tx_queue_setup h port 0 nb_txd)]) := by
  simp only [tx_queues_setup]
  split_ifs <;> simp_all

theorem port_init_cases (w : World) (port : Nat) (h : List Call) :
    ∃ d, (port_init w port h).2 = h ++ d ∧
      (w.dev_count ≤ port → (port_init w port h).1 ≠ 0 ∧ d = []) ∧
      (∀ e ∈ d, step_failed e = true →
        (port_init w port h).1 ≠ 0 ∧ ∀ e' ∈ d, step_rank e' ≤ step_rank e) ∧
      ((port_init w port h).1 = 0 →
        port < w.dev_count ∧ d.map step_rank = [1, 2, 3, 4, 5, 6, 7, 8, 9] ∧
        ∀ e ∈ d, step_failed e = false) ∧
      ((port_init w port h).1 ≠ 0 → Call.eal_mp_remote_launch ∉ d) := by
  unfold port_init
  by_cases h0 : port ≥ w.dev_count
  · rw [if_pos h0]
    exact ⟨[], by simp, by simp, by simp, by simp, by simp⟩
  · rw [if_neg h0]
    have h0' : ¬ w.dev_count ≤ port := h0
    dsimp only
    generalize w.dev_configure h port = c
    by_cases h1 : c ≠ 0
    · rw [if_pos h1]
      refine ⟨[_], rfl, ?_⟩
      simp_all [step_failed, step_rank]
    rw [if_neg h1]
    generalize w.adjust_desc (h ++ [Call.eth_dev_configure port 1 1 c]) port
      RX_RING_SIZE TX_RING_SIZE = adj
    by_cases h2 : adj.1 ≠ 0
    · rw [if_pos h2]
      refine ⟨_, by simp only [List.append_assoc]; exact rfl, ?_⟩
      simp_all [step_failed, step_rank]
    rw [if_neg h2, rx_queues_setup_one]
    generalize w.rx_queue_setup (h ++ [Call.eth_dev_configure port 1 1 c] ++
      [Call.eth_dev_adjust_nb_rx_tx_desc port RX_RING_SIZE TX_RING_SIZE adj.1]) port 0 adj.2.1 = r
    by_cases h3 : r < 0
    · simp only [if_pos h3]
      refine ⟨_, by simp only [List.append_assoc]; exact rfl, ?_⟩
      simp_all [step_failed, step_rank]
      omega
    simp only [if_neg h3, tx_queues_setup_one]
    generalize w.tx_queue_setup (h ++ [Call.eth_dev_configure port 1 1 c] ++
      [Call.eth_dev_adjust_nb_rx_tx_desc port RX_RING_SIZE TX_RING_SIZE adj.1] ++
      [Call.eth_rx_queue_setup port 0 adj.2.1 r]) port 0 adj.2.2 = t
    by_cases h4 : t < 0
    · simp only [if_pos h4]
      refine ⟨_, by simp only [List.append_assoc]; exact rfl, ?_⟩
      simp_all [step_failed, step_rank]
      omega
    simp only [if_neg h4]
    generalize w.dev_start (h ++ [Call.eth_dev_configure port 1 1 c] ++
      [Call.eth_dev_adjust_nb_rx_tx_desc port RX_RING_SIZE TX_RING_SIZE adj.1] ++
      [Call.eth_rx_queue_setup port 0 adj.2.1 r] ++
      [Call.eth_tx_queue_setup port 0 adj.2.2 t]) port = s
    by_cases h5 : s < 0
    · simp only [if_pos h5]
      refine ⟨_, by simp only [List.append_assoc]; exact rfl, ?_⟩
      simp_all [step_failed, step_rank]
      omega
    simp only [if_neg h5]
    refine ⟨_, by simp only [List.append_assoc]; exact rfl, ?_⟩
    simp_all [step_failed, step_rank]

theorem init_ports_observe (w : World) :
    ∀ (k portid : Nat) (h : List Call),
      (init_ports w k portid h).1 ≠ Exit.fatal "Invalid port number\n" [] ∧
      h <+: (init_ports w k portid h).2 := by
  intro k
  induction k with
  | zero => intro portid h; simp [init_ports]
  | succ k ih =>
    intro portid h
    obtain ⟨d, hd, _⟩ := port_init_cases w portid h
    rw [init_ports]
    by_cases hr : (port_init w portid h).1 ≠ 0
    · simp only [if_pos hr]
      exact ⟨by simp, ⟨d, hd.symm⟩⟩
    · simp only [if_neg hr]
      obtain ⟨a1, a2⟩ := ih (portid + 1) (port_init w portid h).2
      exact ⟨a1, (show h <+: (port_init w portid h).2 from ⟨d, hd.symm⟩).trans a2⟩

/-- C9: `port_init` fails closed.  If `port` is not below the port count it
returns a non-zero value and makes no call.  If one of its five set-up calls
(device configure, descriptor adjustment, receive-queue setup, transmit-queue
setup, device start) returns a negative value, `port_init` returns a non-zero
value and makes no call of a later step: the port is not started after a
failed setup and the workers are not launched.  It returns 0 only when `port`
is below the port count and all steps ran, none reporting failure.  When
`port_init` returns non-zero in the loop of `main`, `main` makes no further
call and exits with the fatal message that names that port; so it does when
the start of port 1 fails. -/
theorem port_init_fails_closed (w : World) (port : Nat) (h : List Call) :
    (∃ d, (port_init w port h).2 = h ++ d ∧
      (w.dev_count ≤ port → (port_init w port h).1 ≠ 0 ∧ d = []) ∧
      (∀ e ∈ d, step_failed e = true →
        (port_init w port h).1 ≠ 0 ∧ ∀ e' ∈ d, step_rank e' ≤ step_rank e) ∧
      ((port_init w port h).1 = 0 →
        port < w.dev_count ∧ d.map step_rank = [1, 2, 3, 4, 5, 6, 7, 8, 9] ∧
        ∀ e ∈ d, step_failed e = false) ∧
      ((port_init w port h).1 ≠ 0 → Call.eal_mp_remote_launch ∉ d) ∧
      (∀ k, (port_init w port h).1 ≠ 0 →
        init_ports w (k + 1) port h = (Exit.fatal "Fail to init port %u\n" [port], h ++ d))) ∧
    (main start_fails_on_1).1 = Exit.fatal "Fail to init port %u\n" [1] := by
  refine ⟨?_, rfl⟩
  obtain ⟨d, h1, h2, h3, h4, h5⟩ := port_init_cases w port h
  refine ⟨d, h1, h2, h3, h4, h5, ?_⟩
  intro k hr
  rw [init_ports]
  simp only [if_pos hr, h1]

/-- C9 when `rte_eth_dev_start` fails on port 1: the loop of `main` stops there. -/
theorem port_init_fails_closed_witness :
    init_ports start_fails_on_1 (0 + 1) 1 [] =
      (Exit.fatal "Fail to init port %u\n" [1],
       [Call.eth_dev_configure 1 1 1 0,
        Call.eth_dev_adjust_nb_rx_tx_desc 1 RX_RING_SIZE TX_RING_SIZE 0,
        Call.eth_rx_queue_setup 1 0 RX_RING_SIZE 0,
        Call.eth_tx_queue_setup 1 0 TX_RING_SIZE 0,
        Call.eth_dev_start 1 (-5)]) := by
  obtain ⟨d, h1, _, _, _, _, h6⟩ := (port_init_fails_closed start_fails_on_1 1 []).1
  have h7 := h6 0 (by decide)
  rw [h7, ← h1]
  rfl

/-- C3: once `rte_eal_init` succeeded, `main` goes on to create the buffer pool
if and only if the port count `n` satisfies `n >= 2` and `n` even, and
otherwise exits with the fatal message "Invalid port number"; the counts 0,
1, 3 and 5 are rejected and the counts 2, 4 and 6 pass the check. -/
theorem port_count_check (w : World) (he : 0 ≤ w.eal_ret) :
    ((2 ≤ w.dev_count % 256 ∧ w.dev_count % 256 % 2 = 0) ↔
      ∃ ok, Call.pktmbuf_pool_create (NUM_MBUFS * (w.dev_count % 256)) MBUF_CACHE_SIZE ok
        ∈ (main w).2) ∧
    ((2 ≤ w.dev_count % 256 ∧ w.dev_count % 256 % 2 = 0) ↔
      (main w).1 ≠ Exit.fatal "Invalid port number\n" []) ∧
    (w.dev_count ∈ [0, 1, 3, 5] → (main w).1 = Exit.fatal "Invalid port number\n" []) ∧
    (w.dev_count ∈ [2, 4, 6] → (main w).1 ≠ Exit.fatal "Invalid port number\n" []) := by
  have hnot : ¬ w.eal_ret < 0 := by omega
  have key : ((2 ≤ w.dev_count % 256 ∧ w.dev_count % 256 % 2 = 0) ↔
      (main w).1 ≠ Exit.fatal "Invalid port number\n" []) := by
    unfold main
    simp only [if_neg hnot, Nat.and_one_is_mod]
    by_cases hc : w.dev_count % 256 < 2 ∨ w.dev_count % 256 % 2 ≠ 0
    · simp only [if_pos hc]
      constructor
      · intro h; omega
      · intro h; exact absurd rfl h
    · simp only [if_neg hc]
      constructor
      · intro _
        split_ifs
        · simp
        · exact (init_ports_observe w _ _ _).1
      · intro _; omega
  refine ⟨?_, key, ?_, ?_⟩
  · unfold main
    simp only [if_neg hnot, Nat.and_one_is_mod]
    by_cases hc : w.dev_count % 256 < 2 ∨ w.dev_count % 256 % 2 ≠ 0
    · simp only [if_pos hc]
      constructor
      · intro h; omega
      · intro h; simp at h
    · simp only [if_neg hc]
      constructor
      · intro _
        refine ⟨w.pool_ok ([Call.eal_setup w.eal_ret] ++
          [Call.write_quit false, Call.signal SIGINT, Call.signal SIGTERM] ++
          [Call.rte_log "Number of ports: %u\n" [w.dev_count % 256]]), ?_⟩
        split_ifs
        · simp
        · apply (init_ports_observe w _ _ _).2.subset
          simp
      · intro _; omega
  · intro hm
    by_contra hcon
    have := key.mpr hcon
    simp at hm
    omega
  · intro hm
    apply key.mp
    simp at hm
    omega

/-- C3 for two ports. -/
theorem port_count_check_witness :
    ((2 ≤ quiet.dev_count % 256 ∧ quiet.dev_count % 256 % 2 = 0) ↔
      ∃ ok, Call.pktmbuf_pool_create (NUM_MBUFS * (quiet.dev_count % 256)) MBUF_CACHE_SIZE ok
        ∈ (main quiet).2) ∧
    ((2 ≤ quiet.dev_count % 256 ∧ quiet.dev_count % 256 % 2 = 0) ↔
      (main quiet).1 ≠ Exit.fatal "Invalid port number\n" []) ∧
    (quiet.dev_count ∈ [0, 1, 3, 5] → (main quiet).1 = Exit.fatal "Invalid port number\n" []) ∧
    (quiet.dev_count ∈ [2, 4, 6] → (main quiet).1 ≠ Exit.fatal "Invalid port number\n" []) :=
  port_count_check quiet (by decide)

theorem forward_port_tx (w : World) (port : Nat) (h : List Call) :
    tx_calls (forward_port w port h) = tx_calls h ∨
    ∃ b, b ≠ [] ∧ w.rx_burst h port 0 BURST_SIZE = b ∧
      tx_calls (forward_port w port h) = tx_calls h ++ [(pair port, 0, b, b.length)] := by
  by_cases hb : w.rx_burst h port 0 BURST_SIZE = []
  · left
    rw [forward_port_empty w port h hb]
    simp [tx_calls_append, tx_calls]
  · right
    refine ⟨_, hb, rfl, ?_⟩
    rw [forward_port_burst w port h hb]
    simp [tx_calls_append, tx_calls, observe_map_free, -List.map_drop]

theorem sweep_from_tx_target (w : World) :
    ∀ (k port : Nat) (h : List Call) (c : Nat × Nat × List Mbuf × Nat),
      c ∈ tx_calls (sweep_from w k port h) →
      c ∈ tx_calls h ∨ ∃ p, port ≤ p ∧ p < port + k ∧ c.1 = pair p ∧ c.2.1 = 0 := by
  intro k
  induction k with
  | zero => intro port h c hc; left; simpa [sweep_from] using hc
  | succ k ih =>
    intro port h c hc
    rw [sweep_from] at hc
    rcases ih (port + 1) _ c hc with h1 | ⟨p, p1, p2, p3, p4⟩
    · rcases forward_port_tx w port h with e | ⟨b, _, _, e⟩
      · left; rwa [e] at h1
      · rw [e] at h1
        rcases List.mem_append.mp h1 with h2 | h2
        · left; exact h2
        · right
          refine ⟨port, le_refl _, by omega, ?_⟩
          simp at h2
          subst h2
          exact ⟨rfl, rfl⟩
    · right; exact ⟨p, by omega, by omega, p3, p4⟩

theorem sweep_from_busy_tx :
    ∀ (k port : Nat) (h : List Call),
      tx_calls (sweep_from busy k port h) =
        tx_calls h ++ (List.range' port k).map (fun p => (pair p, 0, [7], 1)) := by
  intro k
  induction k with
  | zero => intro port h; simp [sweep_from]
  | succ k ih =>
    intro port h
    rw [sweep_from, ih]
    rcases forward_port_tx busy port h with e | ⟨b, _, hb, e⟩
    · exfalso
      have hne : busy.rx_burst h port 0 BURST_SIZE ≠ [] := by simp [busy]
      have := forward_port_burst busy port h hne
      rw [this] at e
      simp [tx_calls_append, tx_calls] at e
    · have hb7 : b = [7] := by rw [← hb]; rfl
      subst hb7
      rw [e, List.range'_succ]
      simp

/-- C10: for an even port count `n >= 2` (`n <= 255`) the transmit target
`pair i` of every port `i < n` is again below `n`, so every transmit call of a
sweep over `n` ports goes to a port below `n`; for an odd `n` the last port
`n - 1` is mapped to `n`, outside `0 .. n-1`, and a sweep in which port `n - 1`
receives a buffer transmits to port `n`. -/
theorem pair_in_range_iff_even_count (n : Nat) (hn : n ≤ 255) :
    (n % 2 = 0 → 2 ≤ n → ∀ i, i < n → pair i < n) ∧
    (n % 2 = 0 → ∀ (w : World) (c : Nat × Nat × List Mbuf × Nat),
      c ∈ tx_calls (sweep w n []) → c.1 < n) ∧
    (n % 2 = 1 → pair (n - 1) = n ∧ ¬ pair (n - 1) < n) ∧
    (n % 2 = 1 → (n, 0, [7], 1) ∈ tx_calls (sweep busy n [])) := by
  have hin : n % 2 = 0 → ∀ i, i < n → pair i < n := by
    intro he i hi
    have h1 := pair_mod_two i
    have h2 := pair_div_two i
    omega
  have hout : n % 2 = 1 → pair (n - 1) = n := by
    intro ho
    have h1 := pair_mod_two (n - 1)
    have h2 := pair_div_two (n - 1)
    omega
  refine ⟨fun he _ => hin he, ?_, ?_, ?_⟩
  · intro he w c hc
    rcases sweep_from_tx_target w n 0 [] c hc with h1 | ⟨p, _, p2, p3, _⟩
    · simp [tx_calls] at h1
    · rw [p3]; exact hin he p (by omega)
  · intro ho
    exact ⟨hout ho, by rw [hout ho]; omega⟩
  · intro ho
    unfold sweep
    rw [sweep_from_busy_tx]
    simp only [tx_calls, List.nil_append, List.mem_map, List.mem_range']
    exact ⟨n - 1, ⟨n - 1, by omega, by omega⟩, by rw [hout ho]⟩

/-- C10 at the counts 4 (even) and 3 (odd). -/
theorem pair_in_range_iff_even_count_witness :
    (∀ i, i < 4 → pair i < 4) ∧ (pair (3 - 1) = 3 ∧ ¬ pair (3 - 1) < 3) ∧
    (3, 0, [7], 1) ∈ tx_calls (sweep busy 3 []) :=
  ⟨(pair_in_range_iff_even_count 4 (by decide)).1 (by decide) (by decide),
   (pair_in_range_iff_even_count 3 (by decide)).2.2.1 (by decide),
   (pair_in_range_iff_even_count 3 (by decide)).2.2.2 (by decide)⟩

end DpdkDemo
